import Mathlib

/-!
Verification of the metadata spill-over engine of the iceberg-benchmark-poc
repository, against its natural-language specification.

Two source units are embedded:

* `poc/test_density_adaptive_policy.py` — the density-adaptive inlining
  policy (`DensityAdaptivePolicyBenchmark.apply_density_adaptive_policy`),
  classifying delete-vector payloads INLINE vs SPILL;
* `poc/utils/adaptive_tree.py` — the adaptive metadata tree
  (`DataFileEntry`, `LeafManifest`, `RootManifest`, `AdaptiveTreeManager`).

Python byte strings are modelled as `List Nat` (one `Nat` per byte), Python
`int` as `Nat` (all quantities in the source are non-negative counters and
sizes).  Wall-clock measurements (`time.perf_counter`) and console printing
carry no state and are dropped from the embedding.
-/

set_option maxRecDepth 40000

namespace IcebergPoc

/-!
## Density-adaptive policy
Embedding of `MDVEntry` and
`DensityAdaptivePolicyBenchmark.apply_density_adaptive_policy`
(`poc/test_density_adaptive_policy.py`, lines 40-48 and 282-336).
-/

/-- `MDVEntry` dataclass: a single materialized-delete-vector entry.
Python dataclasses compare by field-wise structural equality, which the
derived `DecidableEq` mirrors (the policy code uses `m not in must_inline`). -/
structure MDVEntry where
  manifest_id : Nat
  total_rows : Nat
  deleted_rows : List Nat
  mdv_bytes : List Nat
  mdv_size : Nat
  container_type : String
  should_inline : Bool
deriving DecidableEq, Repr

/-- `sum(m.mdv_size for m in l)`. -/
def sumSizes : List MDVEntry → Nat
  | [] => 0
  | m :: l => m.mdv_size + sumSizes l

/-- Insert an entry into a list sorted by ascending `mdv_size`, after all
strictly smaller entries and before all larger-or-equal ones. -/
def insertBySize (a : MDVEntry) : List MDVEntry → List MDVEntry
  | [] => [a]
  | b :: l => if b.mdv_size < a.mdv_size then b :: insertBySize a l else a :: b :: l

/-- Model of The Python builtin `sorted(candidates, key=lambda m: m.mdv_size)`.
Python sorted is a stable sort by the key; a stable sort is uniquely
determined by the key and the input order, and this insertion sort is stable
(an element is inserted before every already-placed element whose key is
greater than or equal to its own, and those all came later in the input). -/
def sortBySize : List MDVEntry → List MDVEntry
  | [] => []
  | a :: l => insertBySize a (sortBySize l)

/-- Rule 1 (byte floor):
`must_inline = [m for m in mdvs if m.mdv_size < byte_floor_bytes]`. -/
def mustInlineFloor (byte_floor_bytes : Nat) (mdvs : List MDVEntry) : List MDVEntry :=
  mdvs.filter (fun m => decide (m.mdv_size < byte_floor_bytes))

/-- Container heuristic:
`run_containers = [m for m in mdvs if m.container_type == "run" and m not in must_inline]`. -/
def runContainers (byte_floor_bytes : Nat) (mdvs : List MDVEntry) : List MDVEntry :=
  mdvs.filter (fun m =>
    decide (m.container_type = "run") && !(decide (m ∈ mustInlineFloor byte_floor_bytes mdvs)))

/-- `must_inline.extend(run_containers)`: the forced-inline set after rules 1-2. -/
def mustInlineAll (byte_floor_bytes : Nat) (mdvs : List MDVEntry) : List MDVEntry :=
  mustInlineFloor byte_floor_bytes mdvs ++ runContainers byte_floor_bytes mdvs

/-- `candidates = [m for m in mdvs if m not in must_inline]`. -/
def candidatesOf (byte_floor_bytes : Nat) (mdvs : List MDVEntry) : List MDVEntry :=
  mdvs.filter (fun m => !(decide (m ∈ mustInlineAll byte_floor_bytes mdvs)))

/-- The greedy global-cap loop:
```
for mdv in candidates_sorted:
    if current_size + mdv.mdv_size <= global_cap_bytes:
        inlined.append(mdv); current_size += mdv.mdv_size
    else:
        spilled.append(mdv)
```
Returns the entries appended to `inlined` and the `spilled` list, in loop
order. -/
def greedyPack (global_cap_bytes : Nat) (current_size : Nat) :
    List MDVEntry → List MDVEntry × List MDVEntry
  | [] => ([], [])
  | m :: rest =>
    if current_size + m.mdv_size ≤ global_cap_bytes then
      let p := greedyPack global_cap_bytes (current_size + m.mdv_size) rest
      (m :: p.1, p.2)
    else
      let p := greedyPack global_cap_bytes current_size rest
      (p.1, m :: p.2)

/-- Body of `apply_density_adaptive_policy` after the unit conversions
`byte_floor_bytes = byte_floor_kb * 1024` and
`global_cap_bytes = global_cap_mb * 1024 * 1024`.
Returns `(inlined, spilled)`; the returned `policy_time` wall-clock float is
dropped. -/
def applyPolicyCore (byte_floor_bytes global_cap_bytes : Nat) (mdvs : List MDVEntry) :
    List MDVEntry × List MDVEntry :=
  let must_inline := mustInlineAll byte_floor_bytes mdvs
  let p := greedyPack global_cap_bytes (sumSizes must_inline)
    (sortBySize (candidatesOf byte_floor_bytes mdvs))
  (must_inline ++ p.1, p.2)

/-- `DensityAdaptivePolicyBenchmark.apply_density_adaptive_policy`
(defaults `byte_floor_kb=4`, `global_cap_mb=16`). -/
def applyDensityAdaptivePolicy (mdvs : List MDVEntry) (byte_floor_kb global_cap_mb : Nat) :
    List MDVEntry × List MDVEntry :=
  applyPolicyCore (byte_floor_kb * 1024) (global_cap_mb * 1024 * 1024) mdvs

/-!
## Adaptive metadata tree
Embedding of `poc/utils/adaptive_tree.py`.
Path strings are modelled by their UTF-8 byte sequences (`List Nat`); the
paths in the source are plain ASCII, for which UTF-8 bytes coincide with the
character codes.
-/

/-- ASCII/UTF-8 bytes of a Lean string literal (used only for ASCII text). -/
def strBytes (s : String) : List Nat := s.data.map Char.toNat

/-- Base-10 digit rendering (ASCII codes), with structural fuel. -/
def natDigitsAux : Nat → Nat → List Nat
  | 0, _ => []
  | fuel + 1, n => if n < 10 then [48 + n] else natDigitsAux fuel (n / 10) ++ [48 + n % 10]

/-- ASCII bytes of the decimal rendering of `n` (Python `f"{n}"`). -/
def natDigits (n : Nat) : List Nat := natDigitsAux (n + 1) n

/-- `DataFileEntry` dataclass: one data-file metadata record.
`partition_values : Dict[str, any]` is modelled as an association list of
byte strings; it is never read by the embedded operations. -/
structure DataFileEntry where
  file_id : Nat
  file_path : List Nat
  record_count : Nat
  file_size_bytes : Nat
  partition_values : List (List Nat × List Nat)
  mdv : Option (List Nat) := none
deriving DecidableEq, Repr

/-- `DataFileEntry.size_bytes`: `200 + (len(self.mdv) if self.mdv else 0)`.
(Python truthiness: both `None` and the empty byte string contribute 0,
which `Option.getD` + `length` reproduces.) -/
def DataFileEntry.size_bytes (e : DataFileEntry) : Nat :=
  200 + (e.mdv.getD []).length

/-- `LeafManifest` dataclass. -/
structure LeafManifest where
  manifest_id : Nat
  entries : List DataFileEntry := []
  file_path : Option (List Nat) := none
deriving DecidableEq, Repr

/-- `LeafManifest.size_bytes`: sum of contained serialized entry sizes. -/
def LeafManifest.size_bytes (l : LeafManifest) : Nat :=
  (l.entries.map DataFileEntry.size_bytes).sum

/-- `RootManifest` dataclass with its field defaults. -/
structure RootManifest where
  inline_entries : List DataFileEntry := []
  leaf_manifests : List LeafManifest := []
  max_size_bytes : Nat := 16 * 1024 * 1024
  max_entries_per_leaf : Nat := 2000
deriving DecidableEq, Repr

/-- `RootManifest.current_size_bytes`:
inline entry sizes plus `len(leaf_manifests) * 100`. -/
def RootManifest.current_size_bytes (r : RootManifest) : Nat :=
  (r.inline_entries.map DataFileEntry.size_bytes).sum + r.leaf_manifests.length * 100

/-- The leaf path `f"metadata/manifest-{leaf_id}.avro"`. -/
def leafPathOf (leaf_id : Nat) : List Nat :=
  strBytes "metadata/manifest-" ++ natDigits leaf_id ++ strBytes ".avro"

/-- `RootManifest.flush_to_leaf`. Mutation is modelled by returning the
updated manifest together with the Python return value. -/
def RootManifest.flush_to_leaf (r : RootManifest) : Bool × RootManifest :=
  if r.inline_entries = [] then (false, r)
  else
    let leaf_id := r.leaf_manifests.length
    let leaf : LeafManifest :=
      { manifest_id := leaf_id
        entries := r.inline_entries
        file_path := some (leafPathOf leaf_id) }
    (true,
      { r with
        leaf_manifests := r.leaf_manifests ++ [leaf]
        inline_entries := [] })

/-- The state of the manifest right after `self.inline_entries.append(entry)`
inside `add_entry`. -/
def RootManifest.withAppended (r : RootManifest) (e : DataFileEntry) : RootManifest :=
  { r with inline_entries := r.inline_entries ++ [e] }

/-- `RootManifest.add_entry`: append, then flush when
`current_size_bytes() >= max_size_bytes`. -/
def RootManifest.add_entry (r : RootManifest) (e : DataFileEntry) : Bool × RootManifest :=
  if (r.withAppended e).max_size_bytes ≤ (r.withAppended e).current_size_bytes then
    (r.withAppended e).flush_to_leaf
  else (false, r.withAppended e)

/-- One abstract operation on a `RootManifest` (the two mutators). -/
inductive TreeOp where
  | add (e : DataFileEntry)
  | flush
deriving Repr

/-- Apply one operation, keeping only the state. -/
def applyTreeOp (r : RootManifest) : TreeOp → RootManifest
  | .add e => (r.add_entry e).2
  | .flush => r.flush_to_leaf.2

/-- Run a sequence of `add_entry` / `flush_to_leaf` operations. -/
def runTreeOps (r : RootManifest) (ops : List TreeOp) : RootManifest :=
  ops.foldl applyTreeOp r

/-- The entries passed to `add_entry` across a sequence of operations. -/
def addedOf (ops : List TreeOp) : List DataFileEntry :=
  ops.filterMap (fun op => match op with | .add e => some e | .flush => none)

/-- A fresh `RootManifest` with the given configuration and empty contents. -/
def mkRoot (max_size_bytes max_entries_per_leaf : Nat) : RootManifest :=
  { inline_entries := []
    leaf_manifests := []
    max_size_bytes := max_size_bytes
    max_entries_per_leaf := max_entries_per_leaf }

/-- All entries held by the tree: leaf contents in creation order, then the
inline set. -/
def treeContents (r : RootManifest) : List DataFileEntry :=
  (r.leaf_manifests.map LeafManifest.entries).flatten ++ r.inline_entries

/-!
### Commit coordinator
`AdaptiveTreeManager` (`poc/utils/adaptive_tree.py`, lines 199-269).
The `output_dir` path and the on-disk writes carry no in-memory state; the
fallible variant `commitFileAttempt` models a write raising an exception by
returning the in-memory state left behind at the raise point.
-/

/-- `AdaptiveTreeManager` in-memory state (`__init__` defaults). -/
structure AdaptiveTreeManager where
  root : RootManifest := {}
  flush_count : Nat := 0
  commit_count : Nat := 0
deriving DecidableEq, Repr

/-- The statistics dictionary returned by `commit_file`
(`commit_time_ms` is wall-clock and dropped). -/
structure CommitResult where
  commit_id : Nat
  flushed : Bool
  files_written : Nat
  root_size_bytes : Nat
deriving DecidableEq, Repr

/-- `AdaptiveTreeManager.commit_file`, successful path. -/
def commitFile (m : AdaptiveTreeManager) (e : DataFileEntry) :
    AdaptiveTreeManager × CommitResult :=
  let fr := m.root.add_entry e
  let fc := if fr.1 then m.flush_count + 1 else m.flush_count
  let cc := m.commit_count + 1
  ({ root := fr.2, flush_count := fc, commit_count := cc },
   { commit_id := cc
     flushed := fr.1
     files_written := if fr.1 then 2 else 1
     root_size_bytes := fr.2.current_size_bytes })

/-- The manager state after `add_entry` (and the conditional
`flush_count += 1`) but before `commit_count += 1`: the in-memory state at
the moment either persistence call can raise. -/
def commitAttemptState (m : AdaptiveTreeManager) (e : DataFileEntry) :
    AdaptiveTreeManager :=
  { root := (m.root.add_entry e).2
    flush_count :=
      if (m.root.add_entry e).1 then m.flush_count + 1 else m.flush_count
    commit_count := m.commit_count }

/-- `commit_file` when the storage writes may fail.  `leaf_write_ok` /
`root_write_ok` say whether `_persist_latest_leaf` / `_persist_root`
succeed; a failure raises, and the `Except.error` value is the in-memory
manager state at the moment the exception propagates (the source has no
`try`/`except`, so nothing is undone).  `_persist_latest_leaf` runs only
when a flush occurred, and `commit_count += 1` runs only after
`_persist_root` returns. -/
def commitFileAttempt (leaf_write_ok root_write_ok : Bool)
    (m : AdaptiveTreeManager) (e : DataFileEntry) :
    Except AdaptiveTreeManager (AdaptiveTreeManager × CommitResult) :=
  if (m.root.add_entry e).1 && !leaf_write_ok then .error (commitAttemptState m e)
  else if !root_write_ok then .error (commitAttemptState m e)
  else
    .ok ({ commitAttemptState m e with commit_count := m.commit_count + 1 },
      { commit_id := m.commit_count + 1
        flushed := (m.root.add_entry e).1
        files_written := if (m.root.add_entry e).1 then 2 else 1
        root_size_bytes := (m.root.add_entry e).2.current_size_bytes })

/-- Commit a list of entries in order through `commit_file`. -/
def commitSeq (m : AdaptiveTreeManager) : List DataFileEntry → AdaptiveTreeManager
  | [] => m
  | e :: es => commitSeq (commitFile m e).1 es

/-!
### Binary serialization
`LeafManifest.serialize` and `RootManifest.serialize`.
`struct.pack` with format H / I / Q emits 2/4/8 little-endian bytes and raises
`struct.error` when `n` is out of range; the raising is modelled by
`Option`. -/

/-- `w` little-endian bytes of `n` (assuming `n < 256 ^ w`). -/
def packLE : Nat → Nat → List Nat
  | 0, _ => []
  | w + 1, n => n % 256 :: packLE w (n / 256)

/-- `struct.pack` with its range check: `none` models `struct.error`. -/
def packChecked (w n : Nat) : Option (List Nat) :=
  if n < 256 ^ w then some (packLE w n) else none

/-- The per-entry encoding shared by both serializers:
```
data.extend(struct.pack(H, len(path_bytes))); data.extend(path_bytes)
data.extend(struct.pack(Q, entry.record_count))
data.extend(struct.pack(Q, entry.file_size_bytes))
if entry.mdv: data.extend(struct.pack(I, len(entry.mdv))); data.extend(entry.mdv)
else: data.extend(struct.pack(I, 0))
```
(`None` and the empty byte string produce the same four zero bytes, so both
branches are the `Option.getD []` image.) -/
def serializeEntryBytes (e : DataFileEntry) : Option (List Nat) := do
  let pl ← packChecked 2 e.file_path.length
  let rc ← packChecked 8 e.record_count
  let fs ← packChecked 8 e.file_size_bytes
  let dv := e.mdv.getD []
  let dl ← packChecked 4 dv.length
  pure (pl ++ e.file_path ++ rc ++ fs ++ dl ++ dv)

/-- The `for entry in ...` serialization loop over a list of entries. -/
def serializeEntryList : List DataFileEntry → Option (List Nat)
  | [] => some []
  | e :: es => do pure ((← serializeEntryBytes e) ++ (← serializeEntryList es))

/-- The magic tag the byte string ICEBERG_V4_LEAF. -/
def leafMagic : List Nat := strBytes "ICEBERG_V4_LEAF"

/-- The magic tag the byte string ICEBERG_V4_ROOT. -/
def rootMagic : List Nat := strBytes "ICEBERG_V4_ROOT"

/-- `LeafManifest.serialize`. -/
def LeafManifest.serialize (l : LeafManifest) : Option (List Nat) := do
  let cnt ← packChecked 4 l.entries.length
  let body ← serializeEntryList l.entries
  pure (leafMagic ++ cnt ++ body)

/-- The leaf-reference loop of `RootManifest.serialize`
(`leaf.file_path.encode` raises on `None`, modelled by the `Option` bind). -/
def serializeLeafRefs : List LeafManifest → Option (List Nat)
  | [] => some []
  | l :: ls => do
    let p ← l.file_path
    let pl ← packChecked 2 p.length
    let ec ← packChecked 4 l.entries.length
    pure (pl ++ p ++ ec ++ (← serializeLeafRefs ls))

/-- `RootManifest.serialize` (the version field is the constant 1). -/
def RootManifest.serialize (r : RootManifest) : Option (List Nat) := do
  let icnt ← packChecked 4 r.inline_entries.length
  let ibody ← serializeEntryList r.inline_entries
  let lcnt ← packChecked 4 r.leaf_manifests.length
  let lrefs ← serializeLeafRefs r.leaf_manifests
  pure (rootMagic ++ packLE 4 1 ++ icnt ++ ibody ++ lcnt ++ lrefs)

/-!
Specification-side layout definitions, written from the words of the spec
("Leaf Manifest encoding: magic tag, entry count (unsigned 32-bit), then for
each entry: path length (16-bit) + path bytes, record count (64-bit), file
size (64-bit), delete-vector length (32-bit, 0 if absent) + delete-vector
bytes." and the corresponding Root Manifest sentence), to be compared with
the serializers embedded from the source. -/

/-- Per-entry layout as the spec describes it. -/
def specEntryLayout (e : DataFileEntry) : List Nat :=
  packLE 2 e.file_path.length ++ e.file_path ++
  packLE 8 e.record_count ++ packLE 8 e.file_size_bytes ++
  packLE 4 (e.mdv.getD []).length ++ e.mdv.getD []

/-- Leaf-manifest layout as the spec describes it. -/
def specLeafLayout (l : LeafManifest) : List Nat :=
  leafMagic ++ packLE 4 l.entries.length ++ (l.entries.map specEntryLayout).flatten

/-- Per-leaf-reference layout as the spec describes it. -/
def specLeafRefLayout (l : LeafManifest) : List Nat :=
  packLE 2 (l.file_path.getD []).length ++ l.file_path.getD [] ++
  packLE 4 l.entries.length

/-- Root-manifest layout as the spec describes it. -/
def specRootLayout (r : RootManifest) : List Nat :=
  rootMagic ++ packLE 4 1 ++
  packLE 4 r.inline_entries.length ++ (r.inline_entries.map specEntryLayout).flatten ++
  packLE 4 r.leaf_manifests.length ++ (r.leaf_manifests.map specLeafRefLayout).flatten

/-- Field ranges under which `struct.pack` does not raise for one entry. -/
def entryInRange (e : DataFileEntry) : Prop :=
  e.file_path.length < 256 ^ 2 ∧ e.record_count < 256 ^ 8 ∧
  e.file_size_bytes < 256 ^ 8 ∧ (e.mdv.getD []).length < 256 ^ 4

/-- Ranges under which `LeafManifest.serialize` does not raise. -/
def leafInRange (l : LeafManifest) : Prop :=
  l.entries.length < 256 ^ 4 ∧ ∀ e ∈ l.entries, entryInRange e

/-- Ranges under which `RootManifest.serialize` does not raise: entry fields
in range, and every referenced leaf carries a path of encodable length. -/
def rootInRange (r : RootManifest) : Prop :=
  r.inline_entries.length < 256 ^ 4 ∧ (∀ e ∈ r.inline_entries, entryInRange e) ∧
  r.leaf_manifests.length < 256 ^ 4 ∧
  ∀ l ∈ r.leaf_manifests,
    l.file_path.isSome = true ∧ (l.file_path.getD []).length < 256 ^ 2 ∧
    l.entries.length < 256 ^ 4

instance (e : DataFileEntry) : Decidable (entryInRange e) := by
  unfold entryInRange; infer_instance

instance (l : LeafManifest) : Decidable (leafInRange l) := by
  unfold leafInRange; infer_instance

instance (r : RootManifest) : Decidable (rootInRange r) := by
  unfold rootInRange; infer_instance

/-!
## Concrete inputs used by counterexamples and witnesses
-/

/-- An MDV candidate with the given arrival index, recorded payload size and
container shape.  The policy reads only `mdv_size` (the size recorded at
construction), never the payload bytes themselves, so `mdv_bytes` is left
empty. -/
def mkC (i size : Nat) (ct : String) : MDVEntry :=
  { manifest_id := i
    total_rows := 10000
    deleted_rows := []
    mdv_bytes := []
    mdv_size := size
    container_type := ct
    should_inline := false }

/-- The Scenario C batch: payload sizes
`[100,100,100,5000,5000,5000,5000,5000,5000,5000]` in arrival order,
no run-shaped candidate. -/
def batchC : List MDVEntry :=
  [mkC 0 100 "array", mkC 1 100 "array", mkC 2 100 "array",
   mkC 3 5000 "bitmap", mkC 4 5000 "bitmap", mkC 5 5000 "bitmap",
   mkC 6 5000 "bitmap", mkC 7 5000 "bitmap", mkC 8 5000 "bitmap",
   mkC 9 5000 "bitmap"]

/-- 257 candidates of 4095 bytes each: every one is under the 4096-byte
floor, yet together they hold 1052415 bytes — more than a 1 MiB global
cap. -/
def batchOverCap : List MDVEntry :=
  (List.range 257).map (fun i => mkC i 4095 "bitmap")

/-- The data-file entry used in the module self-test of
`adaptive_tree.py` (without its 2 KiB MDV). -/
def e0 : DataFileEntry :=
  { file_id := 0
    file_path := strBytes "s3://bucket/data/file_0.parquet"
    record_count := 1000000
    file_size_bytes := 134217728
    partition_values := [(strBytes "date", strBytes "2024-01-01")]
    mdv := none }

/-- The in-memory manager state left behind when persisting the root fails
while committing `e0` to a fresh manager. -/
def mgrAfterFail : AdaptiveTreeManager :=
  { root := { inline_entries := [e0] }
    flush_count := 0
    commit_count := 0 }

/-- A delete vector that makes one entry exactly fill the default
16 MiB root threshold: `200 + 16777016 = 16777216`. -/
def bigMdv : List Nat := List.replicate 16777016 0

/-- An entry whose serialized size alone reaches the default root
threshold, so that every commit of it flushes. -/
def bigEntry : DataFileEntry :=
  { file_id := 0
    file_path := strBytes "s3://bucket/data/file_0.parquet"
    record_count := 1000000
    file_size_bytes := 134217728
    partition_values := [(strBytes "date", strBytes "2024-01-01")]
    mdv := some bigMdv }

/-- A small concrete leaf manifest for the serialization witness. -/
def leaf0 : LeafManifest :=
  { manifest_id := 0
    entries := [e0]
    file_path := some (leafPathOf 0) }

/-- A small concrete root manifest for the serialization witness. -/
def root0 : RootManifest :=
  { inline_entries := [e0]
    leaf_manifests := [leaf0]
    max_size_bytes := 16 * 1024 * 1024
    max_entries_per_leaf := 2000 }

/-!
## Helper lemmas about the policy
-/

theorem sumSizes_append (l₁ l₂ : List MDVEntry) :
    sumSizes (l₁ ++ l₂) = sumSizes l₁ + sumSizes l₂ := by
  induction l₁ with
  | nil => simp [sumSizes]
  | cons a t ih => simp [sumSizes, ih, Nat.add_assoc]

theorem insertBySize_perm (a : MDVEntry) (l : List MDVEntry) :
    (insertBySize a l).Perm (a :: l) := by
  induction l with
  | nil => simp [insertBySize]
  | cons b t ih =>
    by_cases h : b.mdv_size < a.mdv_size
    · simp only [insertBySize, if_pos h]
      exact (ih.cons b).trans (List.Perm.swap a b t)
    · simp [insertBySize, if_neg h]

theorem sortBySize_perm (l : List MDVEntry) : (sortBySize l).Perm l := by
  induction l with
  | nil => exact List.Perm.refl []
  | cons a t ih => exact (insertBySize_perm a (sortBySize t)).trans (ih.cons a)

theorem greedyPack_perm (cap cur : Nat) (l : List MDVEntry) :
    ((greedyPack cap cur l).1 ++ (greedyPack cap cur l).2).Perm l := by
  induction l generalizing cur with
  | nil => simp [greedyPack]
  | cons m t ih =>
    by_cases h : cur + m.mdv_size ≤ cap
    · simpa [greedyPack, if_pos h] using (ih (cur + m.mdv_size)).cons m
    · simp only [greedyPack, if_neg h]
      exact List.perm_middle.trans ((ih cur).cons m)

theorem greedyPack_le (cap cur : Nat) (l : List MDVEntry) (h : cur ≤ cap) :
    cur + sumSizes (greedyPack cap cur l).1 ≤ cap := by
  induction l generalizing cur with
  | nil => simpa [greedyPack, sumSizes] using h
  | cons m t ih =>
    by_cases hm : cur + m.mdv_size ≤ cap
    · have := ih (cur + m.mdv_size) hm
      simpa [greedyPack, if_pos hm, sumSizes, Nat.add_assoc] using this
    · simpa [greedyPack, if_neg hm, sumSizes] using ih cur h

theorem runContainers_eq (f : Nat) (mdvs : List MDVEntry) :
    runContainers f mdvs =
      mdvs.filter (fun m =>
        decide (m.container_type = "run") && !(decide (m.mdv_size < f))) := by
  unfold runContainers
  refine List.filter_congr (fun m hm => ?_)
  have : (m ∈ mustInlineFloor f mdvs) ↔ (m.mdv_size < f) := by
    unfold mustInlineFloor
    simp [List.mem_filter, hm]
  rw [decide_eq_decide.mpr this]

theorem mem_mustInlineAll_iff (f : Nat) (mdvs : List MDVEntry) (m : MDVEntry)
    (hm : m ∈ mdvs) :
    m ∈ mustInlineAll f mdvs ↔ (m.mdv_size < f ∨ m.container_type = "run") := by
  unfold mustInlineAll mustInlineFloor
  rw [runContainers_eq]
  simp only [List.mem_append, List.mem_filter, hm, true_and, Bool.and_eq_true,
    Bool.not_eq_eq_eq_not, Bool.not_true, decide_eq_true_eq, decide_eq_false_iff_not]
  constructor
  · rintro (h | ⟨h, _⟩)
    · exact Or.inl h
    · exact Or.inr h
  · rintro (h | h)
    · exact Or.inl h
    · by_cases hf : m.mdv_size < f
      · exact Or.inl hf
      · exact Or.inr ⟨h, hf⟩

theorem candidatesOf_eq (f : Nat) (mdvs : List MDVEntry) :
    candidatesOf f mdvs =
      mdvs.filter (fun m =>
        !(decide (m.mdv_size < f) || decide (m.container_type = "run"))) := by
  unfold candidatesOf
  refine List.filter_congr (fun m hm => ?_)
  simp [mem_mustInlineAll_iff f mdvs m hm]

theorem filter_three_perm {α : Type} (p q : α → Bool) (l : List α) :
    (l.filter p ++ l.filter (fun a => q a && !(p a)) ++
      l.filter (fun a => !(p a || q a))).Perm l := by
  induction l with
  | nil => simp
  | cons a t ih =>
    cases hpe : p a with
    | true =>
      rw [List.filter_cons_of_pos hpe, List.filter_cons_of_neg (by simp [hpe]),
        List.filter_cons_of_neg (by simp [hpe])]
      exact ih.cons a
    | false =>
      cases hqe : q a with
      | true =>
        rw [List.filter_cons_of_neg (by simp [hpe]),
          List.filter_cons_of_pos (by simp [hpe, hqe]),
          List.filter_cons_of_neg (by simp [hpe, hqe]),
          List.append_assoc, List.cons_append]
        have ih' : (t.filter p ++ (t.filter (fun a => q a && !(p a)) ++
            t.filter (fun a => !(p a || q a)))).Perm t := by
          rw [← List.append_assoc]; exact ih
        exact List.perm_middle.trans (ih'.cons a)
      | false =>
        rw [List.filter_cons_of_neg (by simp [hpe]),
          List.filter_cons_of_neg (by simp [hpe, hqe]),
          List.filter_cons_of_pos (by simp [hpe, hqe])]
        exact List.perm_middle.trans (ih.cons a)

theorem mustInline_candidates_perm (f : Nat) (mdvs : List MDVEntry) :
    (mustInlineAll f mdvs ++ candidatesOf f mdvs).Perm mdvs := by
  rw [mustInlineAll, runContainers_eq, candidatesOf_eq]
  exact filter_three_perm (fun m => decide (m.mdv_size < f))
    (fun m => decide (m.container_type = "run")) mdvs

theorem applyPolicyCore_perm (f c : Nat) (mdvs : List MDVEntry) :
    ((applyPolicyCore f c mdvs).1 ++ (applyPolicyCore f c mdvs).2).Perm mdvs := by
  unfold applyPolicyCore
  simp only [List.append_assoc]
  exact ((List.Perm.append_left (mustInlineAll f mdvs)
      ((greedyPack_perm c _ _).trans
        ((sortBySize_perm _).trans (List.Perm.refl _)))).trans
    (mustInline_candidates_perm f mdvs))

/-!
## Claim theorems about the policy
-/

/-- C2, counterexample: on the Scenario C batch with a 4096-byte floor and
a 20000-byte global cap, the fourth 5000-byte candidate (arrival index 6)
is classified SPILL, not INLINE as the claim states: the greedy running
total starts at the 300 bytes already inlined by the byte floor, so the
fourth 5000-byte candidate would bring the total to 20300 > 20000. -/
theorem scenarioC_fourth_5000_spilled_cex :
    mkC 6 5000 "bitmap" ∈ (applyPolicyCore 4096 20000 batchC).2 ∧
    mkC 6 5000 "bitmap" ∉ (applyPolicyCore 4096 20000 batchC).1 := by decide

/-- C2, amended: on the Scenario C batch with byte floor 4096 bytes and
global cap 20000 bytes, the three 100-byte candidates are INLINE by the
byte floor, and — because the greedy running total starts at their 300
bytes — exactly the first three (by arrival order) of the seven 5000-byte
candidates are INLINE (running total 15300), while the remaining four are
SPILL. -/
theorem scenarioC_classification :
    (applyPolicyCore 4096 20000 batchC).1.map (fun m => m.manifest_id) =
      [0, 1, 2, 3, 4, 5] ∧
    (applyPolicyCore 4096 20000 batchC).2.map (fun m => m.manifest_id) =
      [6, 7, 8, 9] := by decide

/-- C3, counterexample: with `byte_floor_kb = 4` and `global_cap_mb = 1`,
the 257 candidates of `batchOverCap` (4095 bytes each, all under the byte
floor) are all classified INLINE and their total of 1052415 bytes exceeds
the 1048576-byte global cap. -/
theorem inline_total_exceeds_cap_cex :
    1 * 1024 * 1024 < sumSizes (applyDensityAdaptivePolicy batchOverCap 4 1).1 := by
  decide

/-- C3, amended: the total byte size of the INLINE classification stays
within `global_cap_bytes` provided the entries forced inline by rules 1-2
(byte floor and run shape) do not already exceed the cap by themselves;
the greedy rule-3 loop never pushes the running total past the cap. -/
theorem inline_total_within_cap_unless_forced (mdvs : List MDVEntry)
    (byte_floor_kb global_cap_mb : Nat)
    (h : sumSizes (mustInlineAll (byte_floor_kb * 1024) mdvs) ≤
      global_cap_mb * 1024 * 1024) :
    sumSizes (applyDensityAdaptivePolicy mdvs byte_floor_kb global_cap_mb).1 ≤
      global_cap_mb * 1024 * 1024 := by
  have hb := greedyPack_le (global_cap_mb * 1024 * 1024)
    (sumSizes (mustInlineAll (byte_floor_kb * 1024) mdvs))
    (sortBySize (candidatesOf (byte_floor_kb * 1024) mdvs)) h
  have heq : sumSizes (applyDensityAdaptivePolicy mdvs byte_floor_kb global_cap_mb).1 =
      sumSizes (mustInlineAll (byte_floor_kb * 1024) mdvs) +
      sumSizes (greedyPack (global_cap_mb * 1024 * 1024)
        (sumSizes (mustInlineAll (byte_floor_kb * 1024) mdvs))
        (sortBySize (candidatesOf (byte_floor_kb * 1024) mdvs))).1 :=
    sumSizes_append _ _
  rw [heq]
  exact hb

/-- Witness for the amended C3 theorem at the Scenario C batch with the
default configuration. -/
theorem inline_total_within_cap_unless_forced_witness :
    sumSizes (mustInlineAll (4 * 1024) batchC) ≤ 16 * 1024 * 1024 ∧
    sumSizes (applyDensityAdaptivePolicy batchC 4 16).1 ≤ 16 * 1024 * 1024 :=
  ⟨by decide, inline_total_within_cap_unless_forced batchC 4 16 (by decide)⟩

/-- C4: any candidate whose recorded payload size is under the byte floor,
and any run-shaped candidate, is classified INLINE by
`apply_density_adaptive_policy`, whatever the rest of the batch and the
configuration are — rules 1 and 2 dominate rule 3. -/
theorem floor_and_run_always_inline (mdvs : List MDVEntry)
    (byte_floor_kb global_cap_mb : Nat) (m : MDVEntry) (hm : m ∈ mdvs)
    (h : m.mdv_size < byte_floor_kb * 1024 ∨ m.container_type = "run") :
    m ∈ (applyDensityAdaptivePolicy mdvs byte_floor_kb global_cap_mb).1 :=
  List.mem_append_left _
    ((mem_mustInlineAll_iff (byte_floor_kb * 1024) mdvs m hm).mpr h)

/-- Witness for C4: the first 100-byte candidate of the Scenario C batch is
inlined under the default configuration. -/
theorem floor_and_run_always_inline_witness :
    mkC 0 100 "array" ∈ batchC ∧ (mkC 0 100 "array").mdv_size < 4 * 1024 ∧
    mkC 0 100 "array" ∈ (applyDensityAdaptivePolicy batchC 4 16).1 :=
  ⟨by decide, by decide,
    floor_and_run_always_inline batchC 4 16 (mkC 0 100 "array") (by decide)
      (Or.inl (by decide))⟩

/-- C10: on a batch of pairwise-distinct candidates,
`apply_density_adaptive_policy` returns a partition of its input: the two
output lists together are a permutation of the input, their lengths sum to
the input length, and every input entry lands in exactly one of the two. -/
theorem policy_partitions_input (mdvs : List MDVEntry)
    (byte_floor_kb global_cap_mb : Nat) (h : mdvs.Nodup) :
    ((applyDensityAdaptivePolicy mdvs byte_floor_kb global_cap_mb).1 ++
      (applyDensityAdaptivePolicy mdvs byte_floor_kb global_cap_mb).2).Perm mdvs ∧
    (applyDensityAdaptivePolicy mdvs byte_floor_kb global_cap_mb).1.length +
      (applyDensityAdaptivePolicy mdvs byte_floor_kb global_cap_mb).2.length =
      mdvs.length ∧
    ∀ m ∈ mdvs,
      (m ∈ (applyDensityAdaptivePolicy mdvs byte_floor_kb global_cap_mb).1 ↔
        m ∉ (applyDensityAdaptivePolicy mdvs byte_floor_kb global_cap_mb).2) := by
  have hperm := applyPolicyCore_perm (byte_floor_kb * 1024)
    (global_cap_mb * 1024 * 1024) mdvs
  refine ⟨hperm, ?_, ?_⟩
  · have hl := hperm.length_eq
    simpa [List.length_append] using hl
  · intro m hm
    have hnd : ((applyDensityAdaptivePolicy mdvs byte_floor_kb global_cap_mb).1 ++
        (applyDensityAdaptivePolicy mdvs byte_floor_kb global_cap_mb).2).Nodup :=
      hperm.symm.nodup h
    obtain ⟨_, _, hdisj⟩ := List.nodup_append.mp hnd
    have hmem : m ∈ (applyDensityAdaptivePolicy mdvs byte_floor_kb global_cap_mb).1 ++
        (applyDensityAdaptivePolicy mdvs byte_floor_kb global_cap_mb).2 :=
      hperm.mem_iff.mpr hm
    constructor
    · intro hi hs
      exact hdisj hi hs
    · intro hns
      rcases List.mem_append.mp hmem with hi | hs
      · exact hi
      · exact absurd hs hns

/-- Witness for C10 at the Scenario C batch with the default
configuration. -/
theorem policy_partitions_input_witness :
    batchC.Nodup ∧
    ((applyDensityAdaptivePolicy batchC 4 16).1 ++
      (applyDensityAdaptivePolicy batchC 4 16).2).Perm batchC ∧
    (mkC 1 100 "array" ∈ (applyDensityAdaptivePolicy batchC 4 16).1 ↔
      mkC 1 100 "array" ∉ (applyDensityAdaptivePolicy batchC 4 16).2) :=
  ⟨by decide, (policy_partitions_input batchC 4 16 (by decide)).1,
    (policy_partitions_input batchC 4 16 (by decide)).2.2 (mkC 1 100 "array")
      (by decide)⟩

/-!
## Helper lemmas about the tree
-/

theorem treeContents_flush (r : RootManifest) :
    treeContents r.flush_to_leaf.2 = treeContents r := by
  unfold RootManifest.flush_to_leaf treeContents
  by_cases h : r.inline_entries = []
  · simp [h]
  · simp [h, List.map_append, List.flatten_append]

theorem treeContents_add (r : RootManifest) (e : DataFileEntry) :
    treeContents (r.add_entry e).2 = treeContents r ++ [e] := by
  unfold RootManifest.add_entry
  split
  · rw [treeContents_flush]
    unfold treeContents
    simp [RootManifest.withAppended, List.append_assoc]
  · unfold treeContents
    simp [RootManifest.withAppended, List.append_assoc]

theorem treeContents_runTreeOps (r : RootManifest) (ops : List TreeOp) :
    treeContents (runTreeOps r ops) = treeContents r ++ addedOf ops := by
  induction ops generalizing r with
  | nil => simp [runTreeOps, addedOf]
  | cons op t ih =>
    have hstep : runTreeOps r (op :: t) = runTreeOps (applyTreeOp r op) t := rfl
    rw [hstep, ih]
    cases op with
    | add e =>
      have : applyTreeOp r (.add e) = (r.add_entry e).2 := rfl
      rw [this, treeContents_add]
      simp [addedOf, List.filterMap_cons, List.append_assoc]
    | flush =>
      have : applyTreeOp r .flush = r.flush_to_leaf.2 := rfl
      rw [this, treeContents_flush]
      simp [addedOf, List.filterMap_cons]

theorem leafIds_flush (r : RootManifest)
    (h : r.leaf_manifests.map (fun l => l.manifest_id) =
      List.range r.leaf_manifests.length) :
    r.flush_to_leaf.2.leaf_manifests.map (fun l => l.manifest_id) =
      List.range r.flush_to_leaf.2.leaf_manifests.length := by
  unfold RootManifest.flush_to_leaf
  by_cases he : r.inline_entries = []
  · simpa [he] using h
  · simp [he, List.map_append, h, List.length_append, List.range_succ]

theorem leafIds_add (r : RootManifest) (e : DataFileEntry)
    (h : r.leaf_manifests.map (fun l => l.manifest_id) =
      List.range r.leaf_manifests.length) :
    (r.add_entry e).2.leaf_manifests.map (fun l => l.manifest_id) =
      List.range (r.add_entry e).2.leaf_manifests.length := by
  unfold RootManifest.add_entry
  split
  · exact leafIds_flush _ h
  · exact h

/-!
## Claim theorems about the tree
-/

/-- C5: after any sequence of `add_entry` / `flush_to_leaf` operations on a
fresh `RootManifest`, the leaf contents (in creation order) followed by the
inline set are exactly the entries passed to `add_entry`, in order; in
particular the multiset over all containers matches the multiset of added
entries occurrence-for-occurrence (every added entry occupies exactly one
container slot). -/
theorem tree_contents_partition (max_size_bytes max_entries_per_leaf : Nat)
    (ops : List TreeOp) :
    treeContents (runTreeOps (mkRoot max_size_bytes max_entries_per_leaf) ops) =
      addedOf ops ∧
    ∀ e : DataFileEntry,
      (runTreeOps (mkRoot max_size_bytes max_entries_per_leaf) ops).inline_entries.count e +
        ((runTreeOps (mkRoot max_size_bytes max_entries_per_leaf) ops).leaf_manifests.map
          (fun l => l.entries.count e)).sum =
      (addedOf ops).count e := by
  have h := treeContents_runTreeOps (mkRoot max_size_bytes max_entries_per_leaf) ops
  have h0 : treeContents (mkRoot max_size_bytes max_entries_per_leaf) = [] := rfl
  rw [h0, List.nil_append] at h
  refine ⟨h, fun e => ?_⟩
  have hc := congrArg (List.count e) h
  rw [treeContents, List.count_append, List.count_flatten, List.map_map] at hc
  rw [Nat.add_comm]
  simpa [Function.comp] using hc

/-- C7: after any sequence of `add_entry` / `flush_to_leaf` operations on a
fresh `RootManifest`, the leaf-manifest identifiers read in sequence are
exactly `0, 1, ..., n-1`: each leaf's identifier equals its position in the
leaf-reference sequence, identifiers start at 0, increase by 1 with no
gaps, and are never reused. -/
theorem leaf_ids_are_positions (max_size_bytes max_entries_per_leaf : Nat)
    (ops : List TreeOp) :
    (runTreeOps (mkRoot max_size_bytes max_entries_per_leaf) ops).leaf_manifests.map
      (fun l => l.manifest_id) =
    List.range
      (runTreeOps (mkRoot max_size_bytes max_entries_per_leaf) ops).leaf_manifests.length := by
  have main : ∀ (l : List TreeOp) (r : RootManifest),
      r.leaf_manifests.map (fun l => l.manifest_id) =
        List.range r.leaf_manifests.length →
      (runTreeOps r l).leaf_manifests.map (fun l => l.manifest_id) =
        List.range (runTreeOps r l).leaf_manifests.length := by
    intro l
    induction l with
    | nil => intro r h; exact h
    | cons op t ih =>
      intro r h
      have hstep : runTreeOps r (op :: t) = runTreeOps (applyTreeOp r op) t := rfl
      rw [hstep]
      refine ih _ ?_
      cases op with
      | add e => exact leafIds_add r e h
      | flush => exact leafIds_flush r h
  exact main ops (mkRoot max_size_bytes max_entries_per_leaf) rfl

/-- C8: `flush_to_leaf` on a manifest whose inline set is empty returns
`False` and leaves the whole state unchanged. -/
theorem flush_empty_noop (r : RootManifest) (h : r.inline_entries = []) :
    r.flush_to_leaf = (false, r) := by
  unfold RootManifest.flush_to_leaf
  simp [h]

/-- Witness for C8 on a fresh manifest with the default configuration. -/
theorem flush_empty_noop_witness :
    (mkRoot (16 * 1024 * 1024) 2000).inline_entries = [] ∧
    (mkRoot (16 * 1024 * 1024) 2000).flush_to_leaf =
      (false, mkRoot (16 * 1024 * 1024) 2000) :=
  ⟨rfl, flush_empty_noop (mkRoot (16 * 1024 * 1024) 2000) rfl⟩

theorem bigEntry_size_eq : bigEntry.size_bytes = 16777216 := by
  rw [DataFileEntry.size_bytes]
  rw [show bigEntry.mdv = some bigMdv from rfl, Option.getD_some, bigMdv,
    List.length_replicate]

theorem commitFile_big_step (m : AdaptiveTreeManager)
    (h1 : m.root.inline_entries = []) (h2 : m.root.max_size_bytes = 16777216) :
    (commitFile m bigEntry).1.root.inline_entries = [] ∧
    (commitFile m bigEntry).1.root.max_size_bytes = 16777216 ∧
    (commitFile m bigEntry).1.root.leaf_manifests.length =
      m.root.leaf_manifests.length + 1 := by
  have hroot : (commitFile m bigEntry).1.root = (m.root.add_entry bigEntry).2 := rfl
  rw [hroot]
  have hcond : (m.root.withAppended bigEntry).max_size_bytes ≤
      (m.root.withAppended bigEntry).current_size_bytes := by
    simp [RootManifest.withAppended, RootManifest.current_size_bytes, h1, h2,
      bigEntry_size_eq]
  unfold RootManifest.add_entry
  rw [if_pos hcond]
  unfold RootManifest.flush_to_leaf
  rw [if_neg (by simp [RootManifest.withAppended])]
  refine ⟨rfl, ?_, ?_⟩
  · simpa [RootManifest.withAppended] using h2
  · simp [RootManifest.withAppended, List.length_append]

theorem commitSeq_replicate_big (n : Nat) :
    ∀ m : AdaptiveTreeManager, m.root.inline_entries = [] →
      m.root.max_size_bytes = 16777216 →
      (commitSeq m (List.replicate n bigEntry)).root.inline_entries = [] ∧
      (commitSeq m (List.replicate n bigEntry)).root.max_size_bytes = 16777216 ∧
      (commitSeq m (List.replicate n bigEntry)).root.leaf_manifests.length =
        m.root.leaf_manifests.length + n := by
  induction n with
  | zero => intro m h1 h2; exact ⟨h1, h2, rfl⟩
  | succ k ih =>
    intro m h1 h2
    rw [List.replicate_succ]
    have hcs : commitSeq m (bigEntry :: List.replicate k bigEntry) =
        commitSeq (commitFile m bigEntry).1 (List.replicate k bigEntry) := rfl
    rw [hcs]
    obtain ⟨s1, s2, s3⟩ := commitFile_big_step m h1 h2
    obtain ⟨t1, t2, t3⟩ := ih (commitFile m bigEntry).1 s1 s2
    refine ⟨t1, t2, ?_⟩
    rw [t3, s3]
    omega

/-- C1, counterexample: committing the 16 MiB-sized entry `bigEntry`
167773 times through `commit_file` on a fresh `AdaptiveTreeManager` (default
`max_size_bytes = 16777216`) flushes on every commit, after which the
accumulated leaf references alone weigh `167773 * 100 = 16777300` bytes —
at least `max_size_bytes` — even though the final commit did flush.  So
`current_size_bytes < max_size_bytes` does not hold after every successful
commit. -/
theorem commit_size_bound_cex :
    ¬ ((commitSeq {} (List.replicate 167773 bigEntry)).root.current_size_bytes <
      (commitSeq {} (List.replicate 167773 bigEntry)).root.max_size_bytes) := by
  obtain ⟨h1, h2, h3⟩ := commitSeq_replicate_big 167773 {} rfl (by decide)
  have hcs : (commitSeq {} (List.replicate 167773 bigEntry)).root.current_size_bytes
      = 16777300 := by
    rw [RootManifest.current_size_bytes, h1, h3]
    simp
  rw [hcs, h2]
  decide

/-- C1, amended: after every `commit_file`, either the root is strictly
under its size threshold, or the flush inside that commit emptied the
inline set and the remaining size is exactly the 100 bytes of reference
overhead per accumulated leaf manifest (which can reach the threshold only
through leaf-reference accumulation, never through inline entries). -/
theorem commit_size_bound_amended (m : AdaptiveTreeManager) (e : DataFileEntry) :
    (commitFile m e).1.root.current_size_bytes <
      (commitFile m e).1.root.max_size_bytes ∨
    ((commitFile m e).1.root.inline_entries = [] ∧
      (commitFile m e).1.root.current_size_bytes =
        (commitFile m e).1.root.leaf_manifests.length * 100) := by
  have hroot : (commitFile m e).1.root = (m.root.add_entry e).2 := rfl
  rw [hroot]
  unfold RootManifest.add_entry
  split
  · unfold RootManifest.flush_to_leaf
    rw [if_neg (by simp [RootManifest.withAppended])]
    refine Or.inr ⟨rfl, ?_⟩
    simp [RootManifest.current_size_bytes]
  · rename_i h
    exact Or.inl (Nat.lt_of_not_le h)

/-- C6, counterexample: when the root write fails while committing `e0` to
a fresh manager, the in-memory state is NOT restored to its pre-commit
value — the entry appended by `add_entry` stays in `inline_entries`. -/
theorem commit_failure_rollback_cex :
    commitFileAttempt true false {} e0 = .error mgrAfterFail ∧
    mgrAfterFail ≠ ({} : AdaptiveTreeManager) := by
  refine ⟨rfl, ?_⟩
  decide

/-- C6, amended: a failed persistence write aborts the commit by raising,
but the in-memory mutations of the attempt are retained, not rolled back:
the escaped state carries the post-`add_entry` root and the incremented
`flush_count` when a flush occurred; only `commit_count` keeps its
pre-commit value, because it is incremented after the root write. -/
theorem commit_failure_keeps_mutations (leaf_write_ok root_write_ok : Bool)
    (m : AdaptiveTreeManager) (e : DataFileEntry) (me : AdaptiveTreeManager)
    (h : commitFileAttempt leaf_write_ok root_write_ok m e = .error me) :
    me.root = (m.root.add_entry e).2 ∧
    me.flush_count =
      (if (m.root.add_entry e).1 then m.flush_count + 1 else m.flush_count) ∧
    me.commit_count = m.commit_count := by
  unfold commitFileAttempt at h
  split at h
  · rw [Except.error.injEq] at h
    rw [← h]
    exact ⟨rfl, rfl, rfl⟩
  · split at h
    · rw [Except.error.injEq] at h
      rw [← h]
      exact ⟨rfl, rfl, rfl⟩
    · exact absurd h (by simp)

theorem serializeEntryBytes_eq (e : DataFileEntry) (h : entryInRange e) :
    serializeEntryBytes e = some (specEntryLayout e) := by
  obtain ⟨h1, h2, h3, h4⟩ := h
  simp only [serializeEntryBytes, packChecked, specEntryLayout]
  rw [if_pos h1, if_pos h2, if_pos h3, if_pos h4]
  rfl

/-- Witness for the amended C6 theorem: root-write failure while committing
`e0` to a fresh manager. -/
theorem commit_failure_keeps_mutations_witness :
    mgrAfterFail.root = (({} : AdaptiveTreeManager).root.add_entry e0).2 ∧
    mgrAfterFail.flush_count =
      (if (({} : AdaptiveTreeManager).root.add_entry e0).1
        then ({} : AdaptiveTreeManager).flush_count + 1
        else ({} : AdaptiveTreeManager).flush_count) ∧
    mgrAfterFail.commit_count = ({} : AdaptiveTreeManager).commit_count :=
  commit_failure_keeps_mutations true false {} e0 mgrAfterFail rfl

theorem serializeEntryList_eq (es : List DataFileEntry)
    (h : ∀ e ∈ es, entryInRange e) :
    serializeEntryList es = some ((es.map specEntryLayout).flatten) := by
  induction es with
  | nil => rfl
  | cons e t ih =>
    have he := serializeEntryBytes_eq e (h e (List.mem_cons_self e t))
    have ht := ih (fun x hx => h x (List.mem_cons_of_mem e hx))
    simp [serializeEntryList, he, ht]

theorem serializeLeafRefs_eq (ls : List LeafManifest)
    (h : ∀ l ∈ ls, l.file_path.isSome = true ∧
      (l.file_path.getD []).length < 256 ^ 2 ∧ l.entries.length < 256 ^ 4) :
    serializeLeafRefs ls = some ((ls.map specLeafRefLayout).flatten) := by
  induction ls with
  | nil => rfl
  | cons l t ih =>
    obtain ⟨hs, hp, he⟩ := h l (List.mem_cons_self l t)
    obtain ⟨p, hpe⟩ := Option.isSome_iff_exists.mp hs
    rw [hpe] at hp
    simp only [Option.getD_some] at hp
    have ht := ih (fun x hx => h x (List.mem_cons_of_mem l hx))
    have hp2 : p.length < 65536 := by simpa using hp
    have he2 : l.entries.length < 4294967296 := by simpa using he
    simp [serializeLeafRefs, packChecked, hpe, ht, hp2, he2, specLeafRefLayout]

/-- C9: whenever the serialized fields fit the ranges `struct.pack`
accepts, `LeafManifest.serialize` produces exactly the magic tag, a
little-endian 32-bit entry count, and per entry a 16-bit path length, the
path bytes, a 64-bit record count, a 64-bit file size and a 32-bit
delete-vector length (0 when absent) followed by the delete-vector bytes;
and `RootManifest.serialize` produces the magic tag, a 32-bit format
version, a 32-bit inline count with the inline entries in the same
per-entry encoding, then a 32-bit leaf-reference count and per reference a
16-bit path length, the path bytes and a 32-bit entry count. -/
theorem serialize_matches_spec_layout (l : LeafManifest) (r : RootManifest)
    (hl : leafInRange l) (hr : rootInRange r) :
    l.serialize = some (specLeafLayout l) ∧
    r.serialize = some (specRootLayout r) := by
  obtain ⟨hlc, hle⟩ := hl
  obtain ⟨hic, hie, hlc2, hlr⟩ := hr
  constructor
  · simp only [LeafManifest.serialize, packChecked, specLeafLayout]
    rw [if_pos hlc, serializeEntryList_eq l.entries hle]
    rfl
  · simp only [RootManifest.serialize, packChecked, specRootLayout]
    rw [if_pos hic, if_pos hlc2, serializeEntryList_eq r.inline_entries hie,
      serializeLeafRefs_eq r.leaf_manifests hlr]
    rfl

/-- Witness for C9 at a concrete one-entry leaf and a root holding one
inline entry and one leaf reference. -/
theorem serialize_matches_spec_layout_witness :
    leafInRange leaf0 ∧ rootInRange root0 ∧
    leaf0.serialize = some (specLeafLayout leaf0) ∧
    root0.serialize = some (specRootLayout root0) :=
  ⟨by decide, by decide,
    (serialize_matches_spec_layout leaf0 root0 (by decide) (by decide)).1,
    (serialize_matches_spec_layout leaf0 root0 (by decide) (by decide)).2⟩

end IcebergPoc
